import Mathlib

/-!
Verification development for the betweenness-centrality core of graph-tool
(`src/graph/centrality/graph_betweenness.cc`).

The entry points `betweenness` and `central_point`, the helper
`normalize_betweenness` and the dispatch structure are embedded from the
source file.  The shortest-path accumulator, dependency back-propagation and
the `central_point_dominance` post-processing live in boost headers that are
not part of this repository's sources, so they are modelled from the spec
(sections 4.1, 4.2, 4.5 and the testable properties of section 8).
Floating-point values are modelled as rationals.
-/

namespace GraphTool

/-- Value-type tags of the type-erased property maps (the closed set of
supported scalar types of the dispatch layer, spec section 9).  `vtDouble`
and `vtLongDouble` are the floating-point types; `vtInt` is scalar but not
floating; `vtString` is not scalar. -/
inductive ValType where
  | vtInt
  | vtDouble
  | vtLongDouble
  | vtString
deriving DecidableEq, Repr

/-- Floating-point property types (`edge_floating_properties` /
`vertex_floating_properties` of the dispatch layer). -/
def isFloating : ValType → Bool
  | .vtDouble => true
  | .vtLongDouble => true
  | _ => false

/-- Scalar property types (`vertex_scalar_properties` of the dispatch
layer): the numeric types, integer ones included. -/
def isScalar : ValType → Bool
  | .vtString => false
  | _ => true

/-- A graph: `n` vertices with dense indices `0..n-1`, a directedness flag
and an edge list; an edge's identity (its map key) is its position in the
list. -/
structure Graph where
  n : Nat
  directed : Bool
  edges : List (Nat × Nat)
deriving DecidableEq, Repr

/-- The directed arcs of the graph as `(edge id, source, target)` triples:
each stored edge, plus its reversal when the graph is undirected (neighbor
iteration is symmetric for undirected graphs, spec section 6). -/
def arcs (g : Graph) : List (Nat × Nat × Nat) :=
  let fwd := g.edges.enum.map (fun p => (p.1, p.2.1, p.2.2))
  if g.directed then fwd
  else fwd ++ g.edges.enum.map (fun p => (p.1, p.2.2, p.2.1))

/-! ### Distances with an unreachable sentinel

Distances are `Option`-valued: `none` is the `+∞`/unreachable sentinel
(spec section 3).  Unweighted distances are hop counts (`Nat`), weighted
ones are weight sums (`ℚ`). -/

/-- Add a finite rational to an optional distance (`∞ + q = ∞`). -/
def oaddQ (a : Option ℚ) (q : ℚ) : Option ℚ := a.map (· + q)

/-- `≤` on optional rational distances, `none` being `+∞`. -/
def oleQ : Option ℚ → Option ℚ → Bool
  | _, none => true
  | none, some _ => false
  | some x, some y => decide (x ≤ y)

/-- Minimum of two optional rational distances. -/
def ominQ (a b : Option ℚ) : Option ℚ := if oleQ a b then a else b

/-- Add one hop to an optional hop count (`∞ + 1 = ∞`). -/
def oaddN (a : Option Nat) (k : Nat) : Option Nat := a.map (· + k)

/-- `≤` on optional hop counts, `none` being `+∞`. -/
def oleN : Option Nat → Option Nat → Bool
  | _, none => true
  | none, some _ => false
  | some x, some y => decide (x ≤ y)

/-- Minimum of two optional hop counts. -/
def ominN (a b : Option Nat) : Option Nat := if oleN a b then a else b

/-! ### Shortest-path accumulator, forward pass

Modelled from the spec: `boost::brandes_betweenness_centrality`'s forward
pass is not under `src/` (only its caller is).  Section 4.1 requires, for a
source `s`, the shortest-path distance of every vertex (breadth-first hop
counts unweighted, Dijkstra weight sums weighted).  Both traversals compute
the least distance reachable along the graph's arcs; the model obtains that
fixpoint by `n` rounds of relaxation over all arcs, which yields the same
distance map for the non-negative weights the spec admits. -/

/-- One relaxation round of the weighted distances. -/
def relaxW (g : Graph) (w : Nat → ℚ) (d : List (Option ℚ)) : List (Option ℚ) :=
  (List.range g.n).map (fun v =>
    (arcs g).foldl
      (fun acc a =>
        if a.2.2 = v then ominQ acc (oaddQ (d.getD a.2.1 none) (w a.1)) else acc)
      (d.getD v none))

/-- Initial weighted distance map for source `s`: `dist(s) = 0`, all other
vertices unreachable. -/
def initDistW (g : Graph) (s : Nat) : List (Option ℚ) :=
  (List.range g.n).map (fun v => if v = s then some 0 else none)

/-- Weighted shortest-path distances from `s` (`n` relaxation rounds). -/
def distW (g : Graph) (w : Nat → ℚ) (s : Nat) : List (Option ℚ) :=
  (relaxW g w)^[g.n] (initDistW g s)

/-- One relaxation round of the unweighted (hop count) distances. -/
def relaxU (g : Graph) (d : List (Option Nat)) : List (Option Nat) :=
  (List.range g.n).map (fun v =>
    (arcs g).foldl
      (fun acc a =>
        if a.2.2 = v then ominN acc (oaddN (d.getD a.2.1 none) 1) else acc)
      (d.getD v none))

/-- Initial unweighted distance map for source `s`. -/
def initDistU (g : Graph) (s : Nat) : List (Option Nat) :=
  (List.range g.n).map (fun v => if v = s then some 0 else none)

/-- Unweighted shortest-path distances from `s`. -/
def distU (g : Graph) (s : Nat) : List (Option Nat) :=
  (relaxU g)^[g.n] (initDistU g s)

/-- Predecessor arcs of `v` in the weighted pass: arcs `(u, v)` with
`dist(u) + w(u,v) = dist(v)` and `u` reachable — the edges on at least one
shortest path to `v` (spec section 3), returned as `(edge id, u)` pairs. -/
def predArcsW (g : Graph) (w : Nat → ℚ) (d : List (Option ℚ)) (v : Nat) :
    List (Nat × Nat) :=
  (arcs g).foldr
    (fun a acc =>
      if a.2.2 = v ∧ (d.getD a.2.1 none).isSome ∧
          oaddQ (d.getD a.2.1 none) (w a.1) = d.getD v none
      then (a.1, a.2.1) :: acc else acc)
    []

/-- Predecessor arcs of `v` in the unweighted pass: arcs `(u, v)` with
`dist(u) + 1 = dist(v)` and `u` reachable. -/
def predArcsU (g : Graph) (d : List (Option Nat)) (v : Nat) :
    List (Nat × Nat) :=
  (arcs g).foldr
    (fun a acc =>
      if a.2.2 = v ∧ (d.getD a.2.1 none).isSome ∧
          oaddN (d.getD a.2.1 none) 1 = d.getD v none
      then (a.1, a.2.1) :: acc else acc)
    []

/-- One propagation round of the shortest-path counts: `sigma(s) = 1`, and
every other vertex receives the sum of its predecessors' counts. -/
def sigmaStep (preds : Nat → List (Nat × Nat)) (s n : Nat) (sig : List Nat) :
    List Nat :=
  (List.range n).map (fun v =>
    if v = s then 1 else (preds v).foldl (fun a p => a + sig.getD p.2 0) 0)

/-- Shortest-path counts ("sigma", spec section 3): `sigma(source) = 1`,
`sigma(v) = 0` for unreachable `v`; counts are propagated along the
predecessor arcs for `n` rounds (the predecessor relation strictly
increases the distance, so `n` rounds reach the fixpoint the traversal
computes). -/
def sigmaFrom (preds : Nat → List (Nat × Nat)) (s n : Nat) : List Nat :=
  (sigmaStep preds s n)^[n]
    ((List.range n).map (fun v => if v = s then 1 else 0))

/-! ### Dependency back-propagation

Modelled from the spec, section 4.2: vertices are processed in decreasing
distance order; for each processed vertex `w` and each predecessor arc
`(v, w)`, `sigma(v)/sigma(w) * (1 + dependency(w))` is added to `v`'s
dependency and to the arc's edge betweenness, and `w ≠ s` adds its
dependency to its vertex betweenness; vertices with `sigma(w) = 0` are
skipped entirely. -/

/-- Insert `v` into a list sorted by the comparator `ge` (descending
order); ties keep the earlier element first. -/
def insertDesc (ge : Nat → Nat → Bool) (v : Nat) : List Nat → List Nat
  | [] => [v]
  | w :: ws => if ge w v then w :: insertDesc ge v ws else v :: w :: ws

/-- Sort a vertex list in decreasing key order by insertion. -/
def sortDesc (ge : Nat → Nat → Bool) (xs : List Nat) : List Nat :=
  xs.foldr (insertDesc ge) []

/-- Processing order of the backward pass: the reachable vertices, sorted
by decreasing distance (`ge v w` decides `key v ≥ key w`). -/
def backOrder (n : Nat) (reach : Nat → Bool) (ge : Nat → Nat → Bool) :
    List Nat :=
  sortDesc ge ((List.range n).filter reach)

/-- State threaded through one source's backward pass: the per-source
dependency map and the global vertex/edge betweenness accumulators. -/
structure BTState where
  dep : List ℚ
  vb : List ℚ
  eb : List ℚ
deriving DecidableEq, Repr

/-- Handling of one predecessor arc `(v, w)` while `w` is processed:
`sigma(v)/sigma(w) * (1 + dependency(w))` is added into `v`'s dependency
and into the arc's edge-betweenness slot (spec section 4.2). -/
def backEdge (sig : List Nat) (w : Nat) (st : BTState) (p : Nat × Nat) :
    BTState :=
  let factor : ℚ :=
    ((sig.getD p.2 0 : ℚ) / (sig.getD w 0 : ℚ)) * (1 + st.dep.getD w 0)
  { st with
    dep := st.dep.set p.2 (st.dep.getD p.2 0 + factor)
    eb := st.eb.set p.1 (st.eb.getD p.1 0 + factor) }

/-- Processing of one vertex `w` of the backward pass (spec section 4.2):
skipped when `sigma(w) = 0`; otherwise every predecessor arc is folded in
by `backEdge`, and `w ≠ s` adds `dependency(w)` to `w`'s vertex
betweenness. -/
def backStep (preds : Nat → List (Nat × Nat)) (sig : List Nat) (s : Nat)
    (st : BTState) (w : Nat) : BTState :=
  if sig.getD w 0 = 0 then st
  else
    let st1 := (preds w).foldl (backEdge sig w) st
    if w ≠ s then
      { st1 with vb := st1.vb.set w (st1.vb.getD w 0 + st1.dep.getD w 0) }
    else st1

/-- The whole backward pass for one source: a fresh all-zero dependency map
(per-source state has the lifetime of one source's pass, spec section 3),
then a fold of `backStep` over the processing order; returns the updated
global accumulators. -/
def backPass (preds : Nat → List (Nat × Nat)) (sig : List Nat) (s n : Nat)
    (order : List Nat) (vb eb : List ℚ) : List ℚ × List ℚ :=
  let st := order.foldl (backStep preds sig s)
    ⟨List.replicate n 0, vb, eb⟩
  (st.vb, st.eb)

/-- One unweighted source's contribution folded into the accumulators:
forward breadth-first pass, then dependency back-propagation. -/
def sourceU (g : Graph) (s : Nat) (vb eb : List ℚ) : List ℚ × List ℚ :=
  let d := distU g s
  backPass (predArcsU g d) (sigmaFrom (predArcsU g d) s g.n) s g.n
    (backOrder g.n (fun v => (d.getD v none).isSome)
      (fun v w => oleN (d.getD w none) (d.getD v none)))
    vb eb

/-- One weighted source's contribution: Dijkstra-style forward pass, then
dependency back-propagation. -/
def sourceW (g : Graph) (wt : Nat → ℚ) (s : Nat) (vb eb : List ℚ) :
    List ℚ × List ℚ :=
  let d := distW g wt s
  backPass (predArcsW g wt d) (sigmaFrom (predArcsW g wt d) s g.n) s g.n
    (backOrder g.n (fun v => (d.getD v none).isSome)
      (fun v w => oleQ (d.getD w none) (d.getD v none)))
    vb eb

/-- Final halving of all accumulated scores for undirected graphs.
Modelled from the spec: the per-source passes of sections 4.1–4.2 count
each unordered source/target pair of an undirected graph once per
direction, and section 8 fixes the raw undirected star-graph center value
at `k*(k-1)/2`, so the accumulated scores are divided by two. -/
def halveUndirected (g : Graph) (m : List ℚ) : List ℚ :=
  if g.directed then m else m.map (· / 2)

/-- Modelled from the spec: `boost::brandes_betweenness_centrality`
(unweighted overload), which is not under `src/`.  All vertices act as
sources (spec section 2: per-source passes aggregated over all sources);
contributions are additively merged into the caller's maps (section 4.3),
then halved for undirected graphs. -/
def brandesU (g : Graph) (vb eb : List ℚ) : List ℚ × List ℚ :=
  let p := (List.range g.n).foldl (fun p s => sourceU g s p.1 p.2) (vb, eb)
  (halveUndirected g p.1, halveUndirected g p.2)

/-- Modelled from the spec: `boost::brandes_betweenness_centrality` with a
weight map (not under `src/`). -/
def brandesW (g : Graph) (wt : Nat → ℚ) (vb eb : List ℚ) :
    List ℚ × List ℚ :=
  let p := (List.range g.n).foldl (fun p s => sourceW g wt s p.1 p.2) (vb, eb)
  (halveUndirected g p.1, halveUndirected g p.2)

/-! ### Normalization (embedded from `normalize_betweenness` in
`src/graph/centrality/graph_betweenness.cc`) -/

/-- The vertex normalization factor of `normalize_betweenness`:
`(n > 2) ? 1.0/((n-1)*(n-2)) : 1.0`, doubled for undirected graphs. -/
def vfactor (g : Graph) (n : Nat) : ℚ :=
  (if n > 2 then 1 / (((n : ℚ) - 1) * ((n : ℚ) - 2)) else 1) *
    (if g.directed then 1 else 2)

/-- The edge normalization factor of `normalize_betweenness`:
`(n > 1) ? 1.0/(n*(n-1)) : 1.0`, doubled for undirected graphs. -/
def efactor (g : Graph) (n : Nat) : ℚ :=
  (if n > 1 then 1 / ((n : ℚ) * ((n : ℚ) - 1)) else 1) *
    (if g.directed then 1 else 2)

/-- `normalize_betweenness` (graph_betweenness.cc, lines 33–64): every
vertex slot is multiplied by `vfactor`, every edge slot by `efactor`.
Returns `(edge map, vertex map)` in the argument order of the source. -/
def normalize_betweenness (g : Graph) (eb vb : List ℚ) (n : Nat) :
    List ℚ × List ℚ :=
  (eb.map (fun x => efactor g n * x), vb.map (fun x => vfactor g n * x))

/-! ### Dispatched computations (embedded from the functors
`get_betweenness` and `get_weighted_betweenness` of the source) -/

/-- `get_betweenness` (graph_betweenness.cc, lines 66–92): run the
unweighted Brandes computation into the caller's maps, then normalize when
asked.  Returns `(vertex map, edge map)`. -/
def get_betweenness (g : Graph) (eb vb : List ℚ) (normalize : Bool)
    (n : Nat) : List ℚ × List ℚ :=
  let p := brandesU g vb eb
  if normalize then
    let q := normalize_betweenness g p.2 p.1 n
    (q.2, q.1)
  else p

/-- `get_weighted_betweenness` (graph_betweenness.cc, lines 94–122): the
weighted Brandes computation, then optional normalization. -/
def get_weighted_betweenness (g : Graph) (wt : Nat → ℚ) (eb vb : List ℚ)
    (normalize : Bool) (n : Nat) : List ℚ × List ℚ :=
  let p := brandesW g wt vb eb
  if normalize then
    let q := normalize_betweenness g p.2 p.1 n
    (q.2, q.1)
  else p

/-! ### Type-erased entry points (embedded from `betweenness` and
`central_point` of the source) -/

/-- A type-erased edge property map: a value-type tag plus the numeric
content, indexed by edge id. -/
structure AnyEMap where
  tag : ValType
  vals : List ℚ
deriving DecidableEq, Repr

/-- A type-erased vertex property map. -/
structure AnyVMap where
  tag : ValType
  vals : List ℚ
deriving DecidableEq, Repr

/-- The errors the entry points can surface: the explicit
`GraphException` on a non-floating output map, and the `bad_any_cast` of
`any_cast<EdgeBetweenness>(weight_map)`. -/
inductive GErr where
  | propertyTypeError
  | badAnyCast
deriving DecidableEq, Repr

/-- `betweenness` (graph_betweenness.cc, lines 124–156): checks that both
output maps hold floating-point values before anything runs, then
dispatches to the weighted or unweighted computation; the weighted path
casts the type-erased weight map to the edge map's concrete type.  The
result carries the error (if any) and the two maps after the call. -/
def betweenness (g : Graph) (weight : Option AnyEMap) (eb : AnyEMap)
    (vb : AnyVMap) (normalize : Bool) :
    Option GErr × AnyEMap × AnyVMap :=
  if ¬ isFloating eb.tag then (some .propertyTypeError, eb, vb)
  else if ¬ isFloating vb.tag then (some .propertyTypeError, eb, vb)
  else
    match weight with
    | some w =>
        if w.tag = eb.tag then
          let p := get_weighted_betweenness g (fun i => w.vals.getD i 0)
            eb.vals vb.vals normalize g.n
          (none, ⟨eb.tag, p.2⟩, ⟨vb.tag, p.1⟩)
        else (some .badAnyCast, eb, vb)
    | none =>
        let p := get_betweenness g eb.vals vb.vals normalize g.n
        (none, ⟨eb.tag, p.2⟩, ⟨vb.tag, p.1⟩)

/-! ### Central point dominance

Modelled from the spec: `boost::central_point_dominance` is not under
`src/`.  Section 4.5: `c* = max` over vertices of the vertex betweenness
(betweenness scores are non-negative, section 8, so the running maximum
starts at `0`); the result is `sum_v (c* - c(v)) / (n - 1)`, and `0` for
`n ≤ 1`.  The map is threaded through every read so that the embedding
shows the pass leaves it untouched. -/

/-- One read of the vertex betweenness map (a `get`): returns the value
and hands the map back. -/
def mapRead (c : List ℚ) (v : Nat) : ℚ × List ℚ := (c.getD v 0, c)

/-- The maximum-finding loop of `central_point_dominance`, threading the
map through each read. -/
def cpdMaxLoop (n : Nat) (c : List ℚ) : ℚ × List ℚ :=
  (List.range n).foldl
    (fun p v =>
      let r := mapRead p.2 v
      (max p.1 r.1, r.2))
    (0, c)

/-- The summation loop of `central_point_dominance`, threading the map
through each read. -/
def cpdSumLoop (n : Nat) (cmax : ℚ) (c : List ℚ) : ℚ × List ℚ :=
  (List.range n).foldl
    (fun p v =>
      let r := mapRead p.2 v
      (p.1 + (cmax - r.1), r.2))
    (0, c)

/-- Modelled from the spec: `boost::central_point_dominance` (section
4.5), returning the dominance value together with the map as it stands
after all reads. -/
def central_point_dominance (n : Nat) (c : List ℚ) : ℚ × List ℚ :=
  let m := cpdMaxLoop n c
  let s := cpdSumLoop n m.1 m.2
  (if n ≤ 1 then 0 else s.1 / ((n : ℚ) - 1), s.2)

/-- `central_point` (graph_betweenness.cc, lines 158–177): `c` starts at
`0.0` and is set through the dispatch over all scalar vertex properties;
no floating-point validation is performed.  A non-scalar map finds no
matching dispatch case and leaves `c` at its initial `0.0` (returned as
`none`).  The graph and the map are handed back unchanged alongside the
result. -/
def central_point (g : Graph) (vm : AnyVMap) :
    Option ℚ × Graph × AnyVMap :=
  if isScalar vm.tag then
    let r := central_point_dominance g.n vm.vals
    (some r.1, g, ⟨vm.tag, r.2⟩)
  else (none, g, vm)

/-- Non-negativity of every slot of a numeric map (an out-of-range slot
reads as `0`). -/
def NN (l : List ℚ) : Prop := ∀ i, 0 ≤ l.getD i 0

/-- Cast of an unweighted (hop count) distance map to a weighted (rational)
one. -/
def castDist (d : List (Option Nat)) : List (Option ℚ) :=
  d.map (Option.map (Nat.cast))

/-- The undirected star graph with one center (vertex `0`) and four
leaves (spec section 8's concrete test graph, `k = 4`, `n = 5`). -/
def starGraph : Graph := ⟨5, false, [(0, 1), (0, 2), (0, 3), (0, 4)]⟩

/-! ## Helper lemmas -/

theorem getD_map_lt (f : ℚ → ℚ) (l : List ℚ) (i : Nat) (h : i < l.length) :
    (l.map f).getD i 0 = f (l.getD i 0) := by
  simp only [List.getD_eq_getElem?_getD, List.getElem?_map,
    List.getElem?_eq_getElem h]
  simp

theorem getD_map_zero (f : ℚ → ℚ) (hf : f 0 = 0) (l : List ℚ) (i : Nat) :
    (l.map f).getD i 0 = f (l.getD i 0) := by
  simp only [List.getD_eq_getElem?_getD, List.getElem?_map]
  cases l[i]? <;> simp [hf]

theorem getD_set_q (l : List ℚ) (j : Nat) (x : ℚ) (i : Nat) :
    (l.set j x).getD i 0 = if j = i ∧ j < l.length then x else l.getD i 0 := by
  simp only [List.getD_eq_getElem?_getD, List.getElem?_set]
  by_cases h : j = i
  · subst h
    by_cases h2 : j < l.length
    · simp [h2]
    · simp [h2, List.getElem?_eq_none (Nat.le_of_not_lt h2)]
  · simp [h]

theorem getD_replicate_zero (n i : Nat) :
    (List.replicate n (0 : ℚ)).getD i 0 = 0 := by
  simp only [List.getD_eq_getElem?_getD, List.getElem?_replicate]
  by_cases h : i < n <;> simp [h]

theorem nn_replicate (n : Nat) : NN (List.replicate n 0) := by
  intro i
  rw [getD_replicate_zero]

theorem nn_set (l : List ℚ) (j : Nat) (x : ℚ) (hl : NN l) (hx : 0 ≤ x) :
    NN (l.set j x) := by
  intro i
  rw [getD_set_q]
  split
  · exact hx
  · exact hl i

theorem foldl_preserve {α β : Type} (P : α → Prop) (f : α → β → α)
    (H : ∀ a b, P a → P (f a b)) :
    ∀ (l : List β) (a : α), P a → P (l.foldl f a) := by
  intro l
  induction l with
  | nil => intro a ha; exact ha
  | cons x xs ih => intro a ha; exact ih (f a x) (H a x ha)

theorem foldl_snd_fix {α β γ : Type} (f : α × β → γ → α × β)
    (g0 : α → β → γ → α) (H : ∀ a b x, f (a, b) x = (g0 a b x, b)) :
    ∀ (l : List γ) (a : α) (b : β),
      l.foldl f (a, b) = (l.foldl (fun a x => g0 a b x) a, b) := by
  intro l
  induction l with
  | nil => intro a b; rfl
  | cons x xs ih =>
      intro a b
      rw [List.foldl_cons, List.foldl_cons, H a b x, ih]

theorem foldl_add_eq_sum (f : Nat → ℚ) :
    ∀ (n : Nat) (a : ℚ),
      (List.range n).foldl (fun a v => a + f v) a
        = a + ∑ v ∈ Finset.range n, f v := by
  intro n
  induction n with
  | zero => intro a; simp
  | succ m ih =>
      intro a
      rw [List.range_succ, List.foldl_append, ih, Finset.sum_range_succ]
      simp [add_assoc]

/-! ## Claims -/

/-- C1: the normalization pass multiplies every vertex betweenness value by
the vertex factor and every edge betweenness value by the edge factor,
where the base vertex factor is `1/((n-1)*(n-2))` for `n > 2` and `1`
otherwise, the base edge factor is `1/(n*(n-1))` for `n > 1` and `1`
otherwise, both doubled when the graph is undirected; and for `n ≤ 2` the
base vertex factor equals `1` (no division by zero). -/
theorem claim_C1 (g : Graph) (eb vb : List ℚ) (n : Nat) :
    (∀ v, v < vb.length →
        (normalize_betweenness g eb vb n).2.getD v 0
          = ((if 2 < n then 1 / (((n : ℚ) - 1) * ((n : ℚ) - 2)) else 1)
              * (if g.directed then 1 else 2)) * vb.getD v 0)
    ∧ (∀ e, e < eb.length →
        (normalize_betweenness g eb vb n).1.getD e 0
          = ((if 1 < n then 1 / ((n : ℚ) * ((n : ℚ) - 1)) else 1)
              * (if g.directed then 1 else 2)) * eb.getD e 0)
    ∧ (n ≤ 2 →
        (if 2 < n then 1 / (((n : ℚ) - 1) * ((n : ℚ) - 2)) else (1 : ℚ))
          = 1) := by
  refine ⟨?_, ?_, ?_⟩
  · intro v hv
    simp only [normalize_betweenness]
    rw [getD_map_lt _ _ _ hv]
    rfl
  · intro e he
    simp only [normalize_betweenness]
    rw [getD_map_lt _ _ _ he]
    rfl
  · intro h
    rw [if_neg (by omega)]

/-- Witness for C1 at `n = 5` (and `n = 2` for the no-division clause) on
the star graph. -/
theorem claim_C1_witness :
    ((normalize_betweenness starGraph [1] [2] 5).2.getD 0 0
      = ((if 2 < 5 then 1 / (((5 : ℚ) - 1) * ((5 : ℚ) - 2)) else 1)
          * (if starGraph.directed then 1 else 2)) * ([(2 : ℚ)].getD 0 0))
    ∧ ((if 2 < 2 then 1 / (((2 : ℚ) - 1) * ((2 : ℚ) - 2)) else (1 : ℚ))
        = 1) :=
  ⟨(claim_C1 starGraph [1] [2] 5).1 0 (by decide),
   (claim_C1 starGraph [1] [2] 2).2.2 (by decide)⟩

/-- C2: the `betweenness` entry point raises the property-type error when
either output map is not of floating-point value type, mutating neither
map, and raises no such error when both are floating. -/
theorem claim_C2 (g : Graph) (weight : Option AnyEMap) (eb : AnyEMap)
    (vb : AnyVMap) (norm : Bool) :
    (¬ (isFloating eb.tag = true ∧ isFloating vb.tag = true) →
      betweenness g weight eb vb norm = (some .propertyTypeError, eb, vb))
    ∧ (isFloating eb.tag = true → isFloating vb.tag = true →
      (betweenness g weight eb vb norm).1 ≠ some .propertyTypeError) := by
  constructor
  · intro h
    cases hE : isFloating eb.tag with
    | false => simp [betweenness, hE]
    | true =>
        cases hV : isFloating vb.tag with
        | false => simp [betweenness, hE, hV]
        | true => exact absurd ⟨hE, hV⟩ h
  · intro hE hV
    cases weight with
    | none => simp [betweenness, hE, hV]
    | some w =>
        by_cases hw : w.tag = eb.tag <;> simp [betweenness, hE, hV, hw]

/-- Witness for C2: an integer edge map is rejected without mutation, and
two floating maps raise no property-type error. -/
theorem claim_C2_witness :
    betweenness starGraph none ⟨.vtInt, []⟩ ⟨.vtDouble, []⟩ true
      = (some .propertyTypeError, ⟨.vtInt, []⟩, ⟨.vtDouble, []⟩)
    ∧ (betweenness starGraph none ⟨.vtDouble, []⟩ ⟨.vtDouble, []⟩ true).1
      ≠ some .propertyTypeError :=
  ⟨(claim_C2 starGraph none ⟨.vtInt, []⟩ ⟨.vtDouble, []⟩ true).1 (by decide),
   (claim_C2 starGraph none ⟨.vtDouble, []⟩ ⟨.vtDouble, []⟩ true).2
     (by decide) (by decide)⟩

unseal Rat.add Rat.mul Rat.inv Rat.sub in
/-- C3: on the undirected, unweighted star graph with `k = 4` leaves and
zero-initialized output maps, the unnormalized center vertex betweenness is
`6 = k*(k-1)/2` and every leaf's is `0`; after normalization the center's
value is `1`, and central point dominance of the normalized map is `1`. -/
theorem claim_C3 :
    (get_betweenness starGraph (List.replicate 4 0) (List.replicate 5 0)
        false 5).1 = [6, 0, 0, 0, 0]
    ∧ (6 : ℚ) = 4 * (4 - 1) / 2
    ∧ (get_betweenness starGraph (List.replicate 4 0) (List.replicate 5 0)
        true 5).1 = [1, 0, 0, 0, 0]
    ∧ (central_point_dominance 5
        (get_betweenness starGraph (List.replicate 4 0) (List.replicate 5 0)
          true 5).1).1 = 1 := by
  decide

/-- C7: in the dependency back-propagation pass, every vertex with zero
sigma is skipped entirely: processing it leaves the dependency and the
vertex- and edge-betweenness accumulators unchanged, the whole pass equals
the pass over only the vertices of nonzero sigma, and every vertex of that
filtered order has nonzero sigma, so the `sigma(v)/sigma(w)` division is
only ever taken at a nonzero `sigma(w)`. -/
theorem claim_C7 (preds : Nat → List (Nat × Nat)) (sig : List Nat) (s : Nat)
    (order : List Nat) (st : BTState) :
    (∀ (st' : BTState) (w : Nat), sig.getD w 0 = 0 →
        backStep preds sig s st' w = st')
    ∧ order.foldl (backStep preds sig s) st
        = (order.filter (fun w => decide (sig.getD w 0 ≠ 0))).foldl
            (backStep preds sig s) st
    ∧ ∀ w ∈ order.filter (fun w => decide (sig.getD w 0 ≠ 0)),
        sig.getD w 0 ≠ 0 := by
  have hskip : ∀ (st' : BTState) (w : Nat), sig.getD w 0 = 0 →
      backStep preds sig s st' w = st' := by
    intro st' w hw
    simp only [backStep]
    rw [if_pos hw]
  refine ⟨hskip, ?_, ?_⟩
  · induction order generalizing st with
    | nil => rfl
    | cons w ws ih =>
        rw [List.foldl_cons, List.filter_cons]
        by_cases hw : sig.getD w 0 = 0
        · rw [hskip st w hw, if_neg (by simpa using hw)]
          exact ih st
        · rw [if_pos (by simpa using hw), List.foldl_cons]
          exact ih _
  · intro w hw
    rw [List.mem_filter] at hw
    exact of_decide_eq_true hw.2

/-- Witness for C7: with path counts `[1, 0]`, vertex `1` is skipped and
the fold over `[1, 0]` equals the fold over the filtered order `[0]`. -/
theorem claim_C7_witness :
    backStep (fun _ => []) [1, 0] 0 ⟨[0], [0], []⟩ 1 = ⟨[0], [0], []⟩
    ∧ [1, 0].foldl (backStep (fun _ => []) [1, 0] 0) ⟨[0], [0], []⟩
        = ([1, 0].filter (fun w => decide ([1, 0].getD w 0 ≠ 0))).foldl
            (backStep (fun _ => []) [1, 0] 0) ⟨[0], [0], []⟩ :=
  ⟨(claim_C7 (fun _ => []) [1, 0] 0 [1, 0] ⟨[0], [0], []⟩).1
      ⟨[0], [0], []⟩ 1 rfl,
   (claim_C7 (fun _ => []) [1, 0] 0 [1, 0] ⟨[0], [0], []⟩).2.1⟩

theorem cpdMaxLoop_fix (n : Nat) (c : List ℚ) :
    cpdMaxLoop n c
      = ((List.range n).foldl (fun a v => max a (c.getD v 0)) 0, c) := by
  unfold cpdMaxLoop
  exact foldl_snd_fix (fun p x => (max p.1 (p.2.getD x 0), p.2))
    (fun a b x => max a (b.getD x 0)) (fun _ _ _ => rfl) (List.range n) 0 c

theorem cpdSumLoop_fix (n : Nat) (cmax : ℚ) (c : List ℚ) :
    cpdSumLoop n cmax c
      = ((List.range n).foldl (fun a v => a + (cmax - c.getD v 0)) 0, c) := by
  unfold cpdSumLoop
  exact foldl_snd_fix (fun p x => (p.1 + (cmax - p.2.getD x 0), p.2))
    (fun a b x => a + (cmax - b.getD x 0)) (fun _ _ _ => rfl)
    (List.range n) 0 c

theorem cpd_snd (n : Nat) (c : List ℚ) :
    (central_point_dominance n c).2 = c := by
  rw [central_point_dominance]
  simp only [cpdMaxLoop_fix, cpdSumLoop_fix]

/-- C8: the `central_point` entry point is a pure function of the graph
and the vertex betweenness map: both come back unchanged (every access is
a read), and equal inputs give equal results. -/
theorem claim_C8 (g : Graph) (vm : AnyVMap) :
    (central_point g vm).2.1 = g
    ∧ (central_point g vm).2.2 = vm
    ∧ ∀ (g' : Graph) (vm' : AnyVMap), g' = g → vm' = vm →
        (central_point g' vm').1 = (central_point g vm).1 := by
  refine ⟨?_, ?_, ?_⟩
  · rw [central_point]
    split <;> rfl
  · rw [central_point]
    split
    · show AnyVMap.mk vm.tag (central_point_dominance g.n vm.vals).2 = vm
      rw [cpd_snd]
    · rfl
  · intro g' vm' hg hv
    rw [hg, hv]

/-- Witness for C8 on the star graph and its normalized betweenness map. -/
theorem claim_C8_witness :
    (central_point starGraph ⟨.vtDouble, [1, 0, 0, 0, 0]⟩).2.2
      = ⟨.vtDouble, [1, 0, 0, 0, 0]⟩
    ∧ (central_point starGraph ⟨.vtDouble, [1, 0, 0, 0, 0]⟩).1
      = (central_point starGraph ⟨.vtDouble, [1, 0, 0, 0, 0]⟩).1 :=
  ⟨(claim_C8 starGraph ⟨.vtDouble, [1, 0, 0, 0, 0]⟩).2.1,
   (claim_C8 starGraph ⟨.vtDouble, [1, 0, 0, 0, 0]⟩).2.2
     starGraph ⟨.vtDouble, [1, 0, 0, 0, 0]⟩ rfl rfl⟩

/-- C9: in weighted mode the type-erased weight map is cast to the edge
betweenness map's concrete type: with both output maps floating, the call
fails with the cast error exactly when the weight map's value type differs
from the edge map's (even when both are floating types), mutating nothing;
with equal types it computes with those weights. -/
theorem claim_C9 (g : Graph) (w eb : AnyEMap) (vb : AnyVMap) (norm : Bool)
    (hE : isFloating eb.tag = true) (hV : isFloating vb.tag = true) :
    ((betweenness g (some w) eb vb norm).1 = some .badAnyCast
      ↔ w.tag ≠ eb.tag)
    ∧ (w.tag ≠ eb.tag →
        betweenness g (some w) eb vb norm = (some .badAnyCast, eb, vb))
    ∧ (w.tag = eb.tag →
        (betweenness g (some w) eb vb norm).2.2.vals
          = (get_weighted_betweenness g (fun i => w.vals.getD i 0) eb.vals
              vb.vals norm g.n).1) := by
  by_cases hw : w.tag = eb.tag
  · refine ⟨?_, ?_, ?_⟩ <;> simp [betweenness, hE, hV, hw]
  · refine ⟨?_, ?_, ?_⟩ <;> simp [betweenness, hE, hV, hw]

/-- Witness for C9: a `long double` weight map against a `double` edge
map — both floating, different types — fails with the cast error. -/
theorem claim_C9_witness :
    betweenness starGraph (some ⟨.vtLongDouble, []⟩) ⟨.vtDouble, []⟩
        ⟨.vtDouble, []⟩ true
      = (some .badAnyCast, ⟨.vtDouble, []⟩, ⟨.vtDouble, []⟩) :=
  (claim_C9 starGraph ⟨.vtLongDouble, []⟩ ⟨.vtDouble, []⟩ ⟨.vtDouble, []⟩
      true rfl rfl).2.1 (by decide)

/-- C10: unlike `betweenness`, the `central_point` entry point performs no
floating-point validation: it dispatches over all scalar vertex
properties, so an integer-valued map (which `betweenness` rejects with the
property-type error) is accepted and the result is returned through that
dispatch. -/
theorem claim_C10 (g : Graph) (vm : AnyVMap) :
    (isScalar vm.tag = true →
      (central_point g vm).1 = some (central_point_dominance g.n vm.vals).1)
    ∧ (vm.tag = .vtInt →
        isScalar vm.tag = true ∧ isFloating vm.tag = false ∧
        ∀ (wopt : Option AnyEMap) (eb : AnyEMap) (norm : Bool),
          betweenness g wopt eb vm norm
            = (some .propertyTypeError, eb, vm)) := by
  constructor
  · intro hs
    rw [central_point]
    rw [if_pos hs]
  · intro ht
    refine ⟨by rw [ht]; rfl, by rw [ht]; rfl, ?_⟩
    intro wopt eb norm
    have hv : isFloating vm.tag = false := by rw [ht]; rfl
    cases hE : isFloating eb.tag
    · simp [betweenness, hE]
    · simp [betweenness, hE, hv]

/-- Witness for C10: an integer vertex map goes through `central_point`
but is rejected by `betweenness`. -/
theorem claim_C10_witness :
    (central_point starGraph ⟨.vtInt, [0, 0, 0, 0, 0]⟩).1
      = some (central_point_dominance 5 [0, 0, 0, 0, 0]).1
    ∧ betweenness starGraph none ⟨.vtDouble, []⟩ ⟨.vtInt, [0, 0, 0, 0, 0]⟩
        true
      = (some .propertyTypeError, ⟨.vtDouble, []⟩,
          ⟨.vtInt, [0, 0, 0, 0, 0]⟩) :=
  ⟨(claim_C10 starGraph ⟨.vtInt, [0, 0, 0, 0, 0]⟩).1 rfl,
   ((claim_C10 starGraph ⟨.vtInt, [0, 0, 0, 0, 0]⟩).2 rfl).2.2 none
     ⟨.vtDouble, []⟩ true⟩

theorem foldl_max_le_self (c : List ℚ) :
    ∀ (l : List Nat) (a : ℚ),
      a ≤ l.foldl (fun a v => max a (c.getD v 0)) a := by
  intro l
  induction l with
  | nil => intro a; exact le_refl a
  | cons x xs ih =>
      intro a
      rw [List.foldl_cons]
      exact le_trans (le_max_left a (c.getD x 0)) (ih _)

theorem foldl_max_ge_mem (c : List ℚ) :
    ∀ (l : List Nat) (a : ℚ) (v : Nat), v ∈ l →
      c.getD v 0 ≤ l.foldl (fun a v => max a (c.getD v 0)) a := by
  intro l
  induction l with
  | nil => intro a v hv; exact absurd hv (List.not_mem_nil v)
  | cons x xs ih =>
      intro a v hv
      rw [List.foldl_cons]
      rcases List.mem_cons.mp hv with h | h
      · subst h
        exact le_trans (le_max_right a (c.getD v 0)) (foldl_max_le_self c xs _)
      · exact ih _ v h

theorem foldl_max_attained (c : List ℚ) :
    ∀ (l : List Nat) (a : ℚ),
      l.foldl (fun a v => max a (c.getD v 0)) a = a
      ∨ ∃ v ∈ l, l.foldl (fun a v => max a (c.getD v 0)) a = c.getD v 0 := by
  intro l
  induction l with
  | nil => intro a; exact Or.inl rfl
  | cons x xs ih =>
      intro a
      rw [List.foldl_cons]
      rcases ih (max a (c.getD x 0)) with h | ⟨v, hv, h⟩
      · rcases max_choice a (c.getD x 0) with hm | hm
        · exact Or.inl (by rw [h, hm])
        · exact Or.inr ⟨x, List.mem_cons_self x xs, by rw [h, hm]⟩
      · exact Or.inr ⟨v, List.mem_cons_of_mem x hv, h⟩

/-- C4: with a scalar vertex map, the `central_point` entry point returns
`0` for `n ≤ 1`, and otherwise `sum_v (c* - c(v)) / (n - 1)` where `c*` is
the maximum vertex betweenness value (attained, and an upper bound, over
the vertices). -/
theorem claim_C4 (g : Graph) (vm : AnyVMap) (hs : isScalar vm.tag = true) :
    (g.n ≤ 1 → (central_point g vm).1 = some 0)
    ∧ (2 ≤ g.n → (∀ v, v < g.n → 0 ≤ vm.vals.getD v 0) →
        ∃ M, (∃ v, v < g.n ∧ vm.vals.getD v 0 = M)
          ∧ (∀ v, v < g.n → vm.vals.getD v 0 ≤ M)
          ∧ (central_point g vm).1
              = some ((∑ v ∈ Finset.range g.n, (M - vm.vals.getD v 0))
                  / ((g.n : ℚ) - 1))) := by
  have hcp : (central_point g vm).1
      = some (central_point_dominance g.n vm.vals).1 := by
    rw [central_point, if_pos hs]
  have hval : (central_point_dominance g.n vm.vals).1
      = if g.n ≤ 1 then 0
        else ((List.range g.n).foldl
            (fun a v => a +
              ((List.range g.n).foldl
                  (fun a v => max a (vm.vals.getD v 0)) 0
                - vm.vals.getD v 0)) 0)
          / ((g.n : ℚ) - 1) := by
    rw [central_point_dominance]
    simp only [cpdMaxLoop_fix, cpdSumLoop_fix]
  constructor
  · intro h1
    rw [hcp, hval, if_pos h1]
  · intro hn h0
    refine ⟨(List.range g.n).foldl (fun a v => max a (vm.vals.getD v 0)) 0,
      ?_, ?_, ?_⟩
    · rcases foldl_max_attained vm.vals (List.range g.n) 0 with h | ⟨v, hv, h⟩
      · refine ⟨0, by omega, ?_⟩
        have hub : vm.vals.getD 0 0
            ≤ (List.range g.n).foldl (fun a v => max a (vm.vals.getD v 0)) 0 :=
          foldl_max_ge_mem vm.vals (List.range g.n) 0 0
            (List.mem_range.mpr (by omega))
        have hlb : 0 ≤ vm.vals.getD 0 0 := h0 0 (by omega)
        rw [h] at hub ⊢
        exact le_antisymm hub hlb
      · exact ⟨v, List.mem_range.mp hv, h.symm⟩
    · intro v hv
      exact foldl_max_ge_mem vm.vals (List.range g.n) 0 v
        (List.mem_range.mpr hv)
    · rw [hcp, hval, if_neg (by omega)]
      rw [foldl_add_eq_sum, zero_add]

/-- Witness for C4 on the star graph's normalized betweenness map. -/
theorem claim_C4_witness :
    ∃ M, (∃ v, v < 5 ∧ ([(1 : ℚ), 0, 0, 0, 0]).getD v 0 = M)
      ∧ (∀ v, v < 5 → ([(1 : ℚ), 0, 0, 0, 0]).getD v 0 ≤ M)
      ∧ (central_point starGraph ⟨.vtDouble, [1, 0, 0, 0, 0]⟩).1
          = some ((∑ v ∈ Finset.range 5,
              (M - ([(1 : ℚ), 0, 0, 0, 0]).getD v 0)) / ((5 : ℚ) - 1)) :=
  (claim_C4 starGraph ⟨.vtDouble, [1, 0, 0, 0, 0]⟩ rfl).2 (by decide)
    (by decide)

theorem nn_backEdge (sig : List Nat) (w : Nat) (st : BTState)
    (p : Nat × Nat) (hd : NN st.dep) (hv : NN st.vb) (he : NN st.eb) :
    NN (backEdge sig w st p).dep ∧ NN (backEdge sig w st p).vb
      ∧ NN (backEdge sig w st p).eb := by
  have hf : (0 : ℚ)
      ≤ ((sig.getD p.2 0 : ℚ) / (sig.getD w 0 : ℚ)) * (1 + st.dep.getD w 0) :=
    mul_nonneg (div_nonneg (Nat.cast_nonneg _) (Nat.cast_nonneg _))
      (add_nonneg zero_le_one (hd w))
  exact ⟨nn_set _ _ _ hd (add_nonneg (hd p.2) hf), hv,
    nn_set _ _ _ he (add_nonneg (he p.1) hf)⟩

theorem nn_backStep (preds : Nat → List (Nat × Nat)) (sig : List Nat)
    (s : Nat) (st : BTState) (w : Nat)
    (h : NN st.dep ∧ NN st.vb ∧ NN st.eb) :
    NN (backStep preds sig s st w).dep ∧ NN (backStep preds sig s st w).vb
      ∧ NN (backStep preds sig s st w).eb := by
  have key : ∀ (l : List (Nat × Nat)) (st' : BTState),
      (NN st'.dep ∧ NN st'.vb ∧ NN st'.eb) →
      NN (l.foldl (backEdge sig w) st').dep
        ∧ NN (l.foldl (backEdge sig w) st').vb
        ∧ NN (l.foldl (backEdge sig w) st').eb := by
    intro l
    exact foldl_preserve
      (fun st' : BTState => NN st'.dep ∧ NN st'.vb ∧ NN st'.eb)
      (backEdge sig w)
      (fun st' p hp => nn_backEdge sig w st' p hp.1 hp.2.1 hp.2.2) l
  rw [backStep]
  by_cases h0 : sig.getD w 0 = 0
  · rw [if_pos h0]
    exact h
  · rw [if_neg h0]
    have k := key (preds w) st h
    by_cases hws : w ≠ s
    · simp only [if_pos hws]
      exact ⟨k.1, nn_set _ _ _ k.2.1 (add_nonneg (k.2.1 w) (k.1 w)), k.2.2⟩
    · simp only [if_neg hws]
      exact k

theorem nn_backPass (preds : Nat → List (Nat × Nat)) (sig : List Nat)
    (s n : Nat) (order : List Nat) (vb eb : List ℚ)
    (hv : NN vb) (he : NN eb) :
    NN (backPass preds sig s n order vb eb).1
      ∧ NN (backPass preds sig s n order vb eb).2 := by
  have key := foldl_preserve
    (fun st' : BTState => NN st'.dep ∧ NN st'.vb ∧ NN st'.eb)
    (backStep preds sig s) (fun st' w hp => nn_backStep preds sig s st' w hp)
    order ⟨List.replicate n 0, vb, eb⟩ ⟨nn_replicate n, hv, he⟩
  exact ⟨key.2.1, key.2.2⟩

theorem nn_halve (g : Graph) (m : List ℚ) (h : NN m) :
    NN (halveUndirected g m) := by
  rw [halveUndirected]
  split
  · exact h
  · intro i
    rw [getD_map_zero _ (by norm_num)]
    exact div_nonneg (h i) (by norm_num)

theorem nn_brandesU (g : Graph) (vb eb : List ℚ) (hv : NN vb) (he : NN eb) :
    NN (brandesU g vb eb).1 ∧ NN (brandesU g vb eb).2 := by
  rw [brandesU]
  have key := foldl_preserve
    (fun p : List ℚ × List ℚ => NN p.1 ∧ NN p.2)
    (fun p s => sourceU g s p.1 p.2)
    (fun p s hp => by
      unfold sourceU
      exact nn_backPass _ _ _ _ _ _ _ hp.1 hp.2)
    (List.range g.n) (vb, eb) ⟨hv, he⟩
  exact ⟨nn_halve g _ key.1, nn_halve g _ key.2⟩

theorem nn_brandesW (g : Graph) (wt : Nat → ℚ) (vb eb : List ℚ)
    (hv : NN vb) (he : NN eb) :
    NN (brandesW g wt vb eb).1 ∧ NN (brandesW g wt vb eb).2 := by
  rw [brandesW]
  have key := foldl_preserve
    (fun p : List ℚ × List ℚ => NN p.1 ∧ NN p.2)
    (fun p s => sourceW g wt s p.1 p.2)
    (fun p s hp => by
      unfold sourceW
      exact nn_backPass _ _ _ _ _ _ _ hp.1 hp.2)
    (List.range g.n) (vb, eb) ⟨hv, he⟩
  exact ⟨nn_halve g _ key.1, nn_halve g _ key.2⟩

theorem vfactor_nonneg (g : Graph) (n : Nat) : 0 ≤ vfactor g n := by
  rw [vfactor]
  apply mul_nonneg
  · split
    · rename_i h
      have h3 : (3 : ℚ) ≤ (n : ℚ) := by exact_mod_cast h
      apply div_nonneg zero_le_one
      apply mul_nonneg <;> linarith
    · exact zero_le_one
  · split
    · exact zero_le_one
    · norm_num

theorem efactor_nonneg (g : Graph) (n : Nat) : 0 ≤ efactor g n := by
  rw [efactor]
  apply mul_nonneg
  · split
    · rename_i h
      have h2 : (2 : ℚ) ≤ (n : ℚ) := by exact_mod_cast h
      apply div_nonneg zero_le_one
      apply mul_nonneg <;> linarith
    · exact zero_le_one
  · split
    · exact zero_le_one
    · norm_num

theorem nn_normalize (g : Graph) (eb vb : List ℚ) (n : Nat)
    (he : NN eb) (hv : NN vb) :
    NN (normalize_betweenness g eb vb n).1
      ∧ NN (normalize_betweenness g eb vb n).2 := by
  rw [normalize_betweenness]
  constructor
  · intro i
    rw [getD_map_zero _ (by rw [mul_zero])]
    exact mul_nonneg (efactor_nonneg g n) (he i)
  · intro i
    rw [getD_map_zero _ (by rw [mul_zero])]
    exact mul_nonneg (vfactor_nonneg g n) (hv i)

theorem nn_get_betweenness (g : Graph) (eb vb : List ℚ) (norm : Bool)
    (n : Nat) (he : NN eb) (hv : NN vb) :
    NN (get_betweenness g eb vb norm n).1
      ∧ NN (get_betweenness g eb vb norm n).2 := by
  rw [get_betweenness]
  have hb := nn_brandesU g vb eb hv he
  split
  · exact ⟨(nn_normalize g _ _ n hb.2 hb.1).2,
      (nn_normalize g _ _ n hb.2 hb.1).1⟩
  · exact hb

theorem nn_get_weighted (g : Graph) (wt : Nat → ℚ) (eb vb : List ℚ)
    (norm : Bool) (n : Nat) (he : NN eb) (hv : NN vb) :
    NN (get_weighted_betweenness g wt eb vb norm n).1
      ∧ NN (get_weighted_betweenness g wt eb vb norm n).2 := by
  rw [get_weighted_betweenness]
  have hb := nn_brandesW g wt vb eb hv he
  split
  · exact ⟨(nn_normalize g _ _ n hb.2 hb.1).2,
      (nn_normalize g _ _ n hb.2 hb.1).1⟩
  · exact hb

/-- C6: for every graph and every call to the `betweenness` entry point
with zero-initialized output maps, with or without normalization, every
resulting vertex betweenness value and every resulting edge betweenness
value is non-negative. -/
theorem claim_C6 (g : Graph) (wopt : Option AnyEMap) (eb : AnyEMap)
    (vb : AnyVMap) (norm : Bool) (ke kv : Nat)
    (he : eb.vals = List.replicate ke 0) (hv : vb.vals = List.replicate kv 0) :
    ∀ i, 0 ≤ (betweenness g wopt eb vb norm).2.1.vals.getD i 0
      ∧ 0 ≤ (betweenness g wopt eb vb norm).2.2.vals.getD i 0 := by
  have hE : NN eb.vals := he ▸ nn_replicate ke
  have hV : NN vb.vals := hv ▸ nn_replicate kv
  intro i
  unfold betweenness
  cases wopt with
  | none =>
      dsimp only
      split
      · exact ⟨hE i, hV i⟩
      · split
        · exact ⟨hE i, hV i⟩
        · exact ⟨(nn_get_betweenness g eb.vals vb.vals norm g.n hE hV).2 i,
            (nn_get_betweenness g eb.vals vb.vals norm g.n hE hV).1 i⟩
  | some w =>
      dsimp only
      split
      · exact ⟨hE i, hV i⟩
      · split
        · exact ⟨hE i, hV i⟩
        · split
          · exact ⟨(nn_get_weighted g (fun j => w.vals.getD j 0) eb.vals
                vb.vals norm g.n hE hV).2 i,
              (nn_get_weighted g (fun j => w.vals.getD j 0) eb.vals
                vb.vals norm g.n hE hV).1 i⟩
          · exact ⟨hE i, hV i⟩

/-- Witness for C6 on the star graph with zero-initialized maps. -/
theorem claim_C6_witness :
    0 ≤ (betweenness starGraph none ⟨.vtDouble, List.replicate 4 0⟩
        ⟨.vtDouble, List.replicate 5 0⟩ true).2.1.vals.getD 0 0
    ∧ 0 ≤ (betweenness starGraph none ⟨.vtDouble, List.replicate 4 0⟩
        ⟨.vtDouble, List.replicate 5 0⟩ true).2.2.vals.getD 0 0 :=
  claim_C6 starGraph none ⟨.vtDouble, List.replicate 4 0⟩
    ⟨.vtDouble, List.replicate 5 0⟩ true 4 5 rfl rfl 0

theorem getD_castDist (d : List (Option Nat)) (u : Nat) :
    (castDist d).getD u none
      = (d.getD u none).map (Nat.cast : Nat → ℚ) := by
  simp only [castDist, List.getD_eq_getElem?_getD, List.getElem?_map]
  cases d[u]? <;> rfl

theorem oadd_cast_one (a : Option Nat) :
    oaddQ (a.map (Nat.cast : Nat → ℚ)) 1 = (oaddN a 1).map Nat.cast := by
  cases a <;> simp [oaddQ, oaddN]

theorem ole_cast (a b : Option Nat) :
    oleQ (a.map (Nat.cast : Nat → ℚ)) (b.map Nat.cast) = oleN a b := by
  cases a <;> cases b <;> simp [oleQ, oleN]

theorem omin_cast (a b : Option Nat) :
    ominQ (a.map (Nat.cast : Nat → ℚ)) (b.map Nat.cast)
      = (ominN a b).map Nat.cast := by
  rw [ominQ, ominN, ole_cast]
  by_cases h : oleN a b <;> simp [h]

theorem relax_cast (g : Graph) (d : List (Option Nat)) :
    relaxW g (fun _ => 1) (castDist d) = castDist (relaxU g d) := by
  unfold relaxW relaxU
  conv_rhs => rw [castDist, List.map_map]
  apply congrArg (fun f => List.map f (List.range g.n))
  funext v
  show _ = Option.map Nat.cast (List.foldl _ (d.getD v none) (arcs g))
  rw [getD_castDist]
  apply List.foldl_hom
  intro acc a
  by_cases ha : a.2.2 = v
  · simp only [if_pos ha, getD_castDist, oadd_cast_one, omin_cast]
  · rw [if_neg ha, if_neg ha]

theorem initDist_cast (g : Graph) (s : Nat) :
    initDistW g s = castDist (initDistU g s) := by
  unfold initDistW initDistU
  rw [castDist, List.map_map]
  apply congrArg (fun f => List.map f (List.range g.n))
  funext v
  by_cases h : v = s <;> simp [h]

theorem dist_iterate_cast (g : Graph) :
    ∀ (k : Nat) (d : List (Option Nat)),
      (relaxW g (fun _ => 1))^[k] (castDist d)
        = castDist ((relaxU g)^[k] d) := by
  intro k
  induction k with
  | zero => intro d; rfl
  | succ m ih =>
      intro d
      rw [Function.iterate_succ_apply, Function.iterate_succ_apply,
        relax_cast, ih]

theorem distW_one_eq (g : Graph) (s : Nat) :
    distW g (fun _ => 1) s = castDist (distU g s) := by
  unfold distW distU
  rw [initDist_cast, dist_iterate_cast]

theorem preds_cast (g : Graph) (d : List (Option Nat)) (v : Nat) :
    predArcsW g (fun _ => 1) (castDist d) v = predArcsU g d v := by
  unfold predArcsW predArcsU
  apply congrArg (fun f => List.foldr f ([] : List (Nat × Nat)) (arcs g))
  funext a acc
  have hinj : ∀ x y : Option Nat,
      x.map (Nat.cast : Nat → ℚ) = y.map Nat.cast ↔ x = y :=
    fun x y => (Option.map_injective Nat.cast_injective).eq_iff
  simp only [getD_castDist, oadd_cast_one, Option.isSome_map', hinj]

theorem source_one_eq (g : Graph) (s : Nat) (vb eb : List ℚ) :
    sourceW g (fun _ => 1) s vb eb = sourceU g s vb eb := by
  simp only [sourceW, sourceU]
  rw [distW_one_eq]
  have hp : predArcsW g (fun _ => 1) (castDist (distU g s))
      = predArcsU g (distU g s) :=
    funext (preds_cast g (distU g s))
  rw [hp]
  have hr : (fun v => ((castDist (distU g s)).getD v none).isSome)
      = (fun v => ((distU g s).getD v none).isSome) := by
    funext v
    rw [getD_castDist, Option.isSome_map']
  have hg : (fun v w => oleQ ((castDist (distU g s)).getD w none)
        ((castDist (distU g s)).getD v none))
      = (fun v w => oleN ((distU g s).getD w none)
        ((distU g s).getD v none)) := by
    funext v w
    rw [getD_castDist, getD_castDist, ole_cast]
  rw [hr, hg]

theorem brandes_one_eq (g : Graph) (vb eb : List ℚ) :
    brandesW g (fun _ => 1) vb eb = brandesU g vb eb := by
  simp only [brandesW, brandesU]
  have h : (fun (p : List ℚ × List ℚ) s => sourceW g (fun _ => 1) s p.1 p.2)
      = (fun (p : List ℚ × List ℚ) s => sourceU g s p.1 p.2) :=
    funext fun p => funext fun s => source_one_eq g s p.1 p.2
  rw [h]

/-- C5: on every graph, the weighted betweenness computation with every
edge weight equal to `1` produces exactly the same vertex and edge
betweenness maps as the unweighted computation with the same normalization
flag. -/
theorem claim_C5 (g : Graph) (eb vb : List ℚ) (norm : Bool) (n : Nat) :
    get_weighted_betweenness g (fun _ => 1) eb vb norm n
      = get_betweenness g eb vb norm n := by
  simp only [get_weighted_betweenness, get_betweenness, brandes_one_eq]

end GraphTool
